import Mathlib

/-!
Verification of the telephony / AI-voice audio bridge server.

The definitions below are a shallow embedding of the TypeScript sources
(`src/server.ts` and its variants): JavaScript numbers used for sample
arithmetic are modelled as rationals, `Buffer`s of bytes as `List ℤ`
(each entry a byte value), `Float32Array`s of samples as `List ℚ`, and
the JavaScript `Map` registry as an association list.  Code that can
throw is additionally modelled by a checked variant returning `Option`.
-/

/-- JavaScript `Math.round`: half-away ties round toward positive
infinity, i.e. `Math.round x = ⌊x + 1/2⌋`. -/
def jsRound (x : ℚ) : ℤ := ⌊x + 1 / 2⌋

/-- PCM16 encoding of one float sample, from `server.ts` line 130-131:
`Math.round(Math.max(-1, Math.min(1, s)) * 32767)`. -/
def pcm16Encode (s : ℚ) : ℤ := jsRound (max (-1) (min 1 s) * 32767)

/-- PCM16 decoding of one int16 sample, from `server.ts` line 108:
`input.readInt16LE(i * 2) / 32768.0`. -/
def pcm16Decode (k : ℤ) : ℚ := (k : ℚ) / 32768

/-- `Buffer.readInt16LE`: little-endian signed 16-bit read of two bytes. -/
def readInt16LE (buf : List ℤ) (off : ℕ) : ℤ :=
  let v := buf.getD off 0 + 256 * buf.getD (off + 1) 0
  if 32768 ≤ v then v - 65536 else v

/-- The byte-buffer-to-float-array loop of `resampleAudio`
(`server.ts` lines 106-109): `inputArray[i] = input.readInt16LE(i*2)/32768`,
with `inputArray.length = input.length / 2` (ToIndex truncation). -/
def bytesToFloats (input : List ℤ) : List ℚ :=
  (List.range (input.length / 2)).map (fun i => (readInt16LE input (2 * i) : ℚ) / 32768)

/-- The interpolation loop body shared by every `resampleAudio` variant
(`server.ts` lines 115-126, `part_000` lines 138-148): for output index
`i` with position step `q = fromRate / toRate`, linear interpolation
between neighbouring input samples, else-branch repeating the last one. -/
def outSample (samples : List ℚ) (q : ℚ) (i : ℕ) : ℚ :=
  let pos := (i : ℚ) * q
  let index := (⌊pos⌋).toNat
  let fraction := pos - ⌊pos⌋
  if index + 1 < samples.length then
    samples.getD index 0 * (1 - fraction) + samples.getD (index + 1) 0 * fraction
  else
    samples.getD index 0

/-- Sample-level `resampleAudio` from `part_000` lines 129-150
(`Float32Array → Float32Array`): `newLength = floor(samples.length / ratio)`
with `ratio = fromRate / toRate`. -/
def resampleAudioF (samples : List ℚ) (fromRate toRate : ℚ) : List ℚ :=
  let newLength := (⌊(samples.length : ℚ) / (fromRate / toRate)⌋).toNat
  (List.range newLength).map (outSample samples (fromRate / toRate))

/-- Byte-level `resampleAudio` from `server.ts` lines 105-135
(`Buffer → Buffer`): decode bytes to floats, resample with
`outputLength = floor(N * (toRate/fromRate))`, then re-encode each output
sample as int16 (the output is modelled as the list of int16 values that
the source writes to the output buffer). -/
def resampleAudio (input : List ℤ) (fromRate toRate : ℚ) : List ℤ :=
  let inputArray := bytesToFloats input
  let outputLength := (⌊(inputArray.length : ℚ) * (toRate / fromRate)⌋).toNat
  ((List.range outputLength).map (outSample inputArray (fromRate / toRate))).map pcm16Encode

-- Helper lemmas about the resampler.

theorem outSample_one (x : List ℚ) (i : ℕ) : outSample x 1 i = x.getD i 0 := by
  unfold outSample
  have h1 : ((i : ℚ) * 1) = (i : ℚ) := mul_one _
  have h2 : ⌊(i : ℚ)⌋ = (i : ℤ) := Int.floor_natCast i
  simp only [h1, h2, Int.toNat_natCast, Int.cast_natCast, sub_self, sub_zero,
    mul_one, mul_zero, add_zero, ite_self]

theorem map_getD_range (x : List ℚ) :
    (List.range x.length).map (fun i => x.getD i 0) = x := by
  apply List.ext_getElem
  · simp
  · intro i h1 h2
    simp [List.getD_eq_getElem?_getD, List.getElem?_eq_getElem, h2]

/-- C9: for every positive rate `r` and every sample sequence `x`,
`resampleAudio(x, r, r) = x`: with equal input and output rates the
resampler is the identity on the sample sequence. -/
theorem resample_identity (x : List ℚ) (r : ℚ) (hr : 0 < r) :
    resampleAudioF x r r = x := by
  unfold resampleAudioF
  have hq : r / r = 1 := div_self (ne_of_gt hr)
  rw [hq]
  simp only [div_one, Int.floor_natCast, Int.toNat_natCast]
  calc (List.range x.length).map (outSample x 1)
      = (List.range x.length).map (fun i => x.getD i 0) := by
        exact List.map_congr_left (fun i _ => outSample_one x i)
    _ = x := map_getD_range x

/-- C9 witness: the identity theorem applied at the telephony rate and a
concrete three-sample sequence. -/
theorem resample_identity_witness :
    0 < (8000 : ℚ) ∧ resampleAudioF [1/2, -1/4, 1] 8000 8000 = [1/2, -1/4, 1] :=
  ⟨by norm_num, resample_identity [1/2, -1/4, 1] 8000 (by norm_num)⟩

/-- C6: for every sample sequence `x` and positive rates, the length of
the resampled output equals `floor(N_in * R_out / R_in)` exactly (hence
certainly within rounding of plus or minus one). -/
theorem resample_length (x : List ℚ) (fromRate toRate : ℚ)
    (hf : 0 < fromRate) (ht : 0 < toRate) :
    ((resampleAudioF x fromRate toRate).length : ℤ)
      = ⌊(x.length : ℚ) * toRate / fromRate⌋ := by
  unfold resampleAudioF
  have h1 : (x.length : ℚ) / (fromRate / toRate) = (x.length : ℚ) * toRate / fromRate := by
    rw [div_div_eq_mul_div]
  have h2 : (0 : ℚ) ≤ (x.length : ℚ) * toRate / fromRate := by positivity
  simp only [List.length_map, List.length_range, h1]
  exact Int.toNat_of_nonneg (Int.floor_nonneg.mpr h2)

/-- C6 witness: the length theorem applied at the telephony-to-AI rate
pair and a concrete two-sample input (output length 6 = floor(2*24000/8000)). -/
theorem resample_length_witness :
    0 < (8000 : ℚ) ∧ 0 < (24000 : ℚ) ∧
      ((resampleAudioF [1, 2] 8000 24000).length : ℤ)
        = ⌊(([(1 : ℚ), 2].length : ℚ) * 24000 / 8000)⌋ :=
  ⟨by norm_num, by norm_num, resample_length [1, 2] 8000 24000 (by norm_num) (by norm_num)⟩

/-- C7 counterexample: at the in-range sample `s = 3276649/3276700`
(about 0.9999844) the encoder computes `round(32767 * s) = 32766`, the
decoder returns `32766/32768`, and the round-trip error is about 1.49
quantization steps, strictly more than the claimed bound of one step
(`1/32768`).  The asymmetry between the `* 32767` in the encoder and the
`/ 32768` in the decoder makes the one-step bound fail near full scale. -/
theorem pcm16_roundTrip_oneStep_cex :
    (-1 : ℚ) ≤ 3276649 / 3276700 ∧ (3276649 / 3276700 : ℚ) ≤ 1 ∧
      1 / 32768 < |pcm16Decode (pcm16Encode (3276649 / 3276700)) - 3276649 / 3276700| := by
  refine ⟨by norm_num, by norm_num, ?_⟩
  have hclamp : max (-1 : ℚ) (min 1 (3276649 / 3276700)) = 3276649 / 3276700 := by
    rw [min_eq_right (by norm_num), max_eq_right (by norm_num)]
  have henc : pcm16Encode (3276649 / 3276700) = 32766 := by
    unfold pcm16Encode jsRound
    rw [hclamp]
    have h : (3276649 / 3276700 : ℚ) * 32767 + 1 / 2 = 3276699 / 100 := by norm_num
    rw [h, Int.floor_eq_iff]
    constructor <;> norm_num
  rw [henc]
  unfold pcm16Decode
  rw [abs_of_neg (by norm_num)]
  norm_num

/-- C7 amended: PCM16 encoding computes `int16 = round(clamp(s,-1,1)*32767)`
and decoding computes `int16/32768`; for every sample `s` in `[-1, 1]` the
round trip `decode(encode(s))` differs from `s` by at most one and a half
quantization steps, `3/65536` (the one-step bound `1/32768` fails, see the
counterexample). -/
theorem pcm16_roundTrip_bound_amended (s : ℚ) (h1 : -1 ≤ s) (h2 : s ≤ 1) :
    |pcm16Decode (pcm16Encode s) - s| ≤ 3 / 65536 := by
  have hclamp : max (-1 : ℚ) (min 1 s) = s := by
    rw [min_eq_right h2, max_eq_right h1]
  unfold pcm16Encode pcm16Decode jsRound
  rw [hclamp]
  set r : ℤ := ⌊s * 32767 + 1 / 2⌋ with hr
  have hub : (r : ℚ) ≤ s * 32767 + 1 / 2 := Int.floor_le _
  have hlb : s * 32767 + 1 / 2 < (r : ℚ) + 1 := Int.lt_floor_add_one _
  rw [abs_le]
  constructor
  · rw [div_sub' _ _ _ (by norm_num : (32768 : ℚ) ≠ 0)]
    rw [le_div_iff₀ (by norm_num : (0 : ℚ) < 32768)]
    nlinarith
  · rw [div_sub' _ _ _ (by norm_num : (32768 : ℚ) ≠ 0)]
    rw [div_le_iff₀ (by norm_num : (0 : ℚ) < 32768)]
    nlinarith

/-- C7 amended witness: the bound applied at the concrete sample `1/2`. -/
theorem pcm16_roundTrip_bound_amended_witness :
    (-1 : ℚ) ≤ 1 / 2 ∧ (1 / 2 : ℚ) ≤ 1 ∧
      |pcm16Decode (pcm16Encode (1 / 2)) - 1 / 2| ≤ 3 / 65536 :=
  ⟨by norm_num, by norm_num,
    pcm16_roundTrip_bound_amended (1 / 2) (by norm_num) (by norm_num)⟩

/-- Checked `Buffer.readInt16LE`: Node throws `ERR_OUT_OF_RANGE` when the
two bytes at `off` are not entirely inside the buffer. -/
def readInt16LEChecked (buf : List ℤ) (off : ℕ) : Option ℤ :=
  if off + 2 ≤ buf.length then some (readInt16LE buf off) else none

/-- Checked typed-array read: an out-of-bounds read yields `undefined`,
which poisons the arithmetic with NaN and makes the final `writeInt16LE`
of the source throw; the checked model reports it at the read. -/
def getSampleChecked (samples : List ℚ) (i : ℕ) : Option ℚ :=
  if i < samples.length then some (samples.getD i 0) else none

/-- Checked interpolation loop body: `outSample` with checked reads. -/
def outSampleChecked (samples : List ℚ) (q : ℚ) (i : ℕ) : Option ℚ :=
  let pos := (i : ℚ) * q
  let index := (⌊pos⌋).toNat
  let fraction := pos - ⌊pos⌋
  if index + 1 < samples.length then
    match getSampleChecked samples index, getSampleChecked samples (index + 1) with
    | some a, some b => some (a * (1 - fraction) + b * fraction)
    | _, _ => none
  else
    getSampleChecked samples index

/-- Checked `Buffer.writeInt16LE`: Node throws `ERR_OUT_OF_RANGE` when the
written value is outside the signed 16-bit range. -/
def writeInt16Checked (v : ℤ) : Option ℤ :=
  if -32768 ≤ v ∧ v ≤ 32767 then some v else none

/-- Exception-propagating map: `none` as soon as any element fails. -/
def mapOption {α β : Type} (f : α → Option β) : List α → Option (List β)
  | [] => some []
  | a :: l =>
    match f a, mapOption f l with
    | some b, some bs => some (b :: bs)
    | _, _ => none

/-- Checked `resampleAudio` (`server.ts` lines 105-135): every operation
of the source that can throw (the `readInt16LE` calls, the allocation of
the output array with a negative length, the typed-array reads feeding
the interpolation, the `writeInt16LE` calls) is modelled; the result is
`none` exactly when the source would raise. -/
def resampleAudioChecked (input : List ℤ) (fromRate toRate : ℚ) : Option (List ℤ) :=
  (mapOption (fun i => (readInt16LEChecked input (2 * i)).map (fun v => (v : ℚ) / 32768))
      (List.range (input.length / 2))).bind (fun inputArray =>
    if ⌊(inputArray.length : ℚ) * (toRate / fromRate)⌋ < 0 then none
    else
      (mapOption (outSampleChecked inputArray (fromRate / toRate))
          (List.range (⌊(inputArray.length : ℚ) * (toRate / fromRate)⌋).toNat)).bind
        (fun output => mapOption (fun s => writeInt16Checked (pcm16Encode s)) output))

theorem mapOption_eq_some_map {α β : Type} (f : α → Option β) (g : α → β) :
    ∀ l : List α, (∀ a ∈ l, f a = some (g a)) → mapOption f l = some (l.map g) := by
  intro l
  induction l with
  | nil => intro _; rfl
  | cons a t ih =>
    intro h
    have ha := h a (List.mem_cons_self a t)
    have ht := ih (fun x hx => h x (List.mem_cons_of_mem a hx))
    simp [mapOption, ha, ht]

theorem bytesToFloats_length (input : List ℤ) :
    (bytesToFloats input).length = input.length / 2 := by
  simp [bytesToFloats]

theorem pcm16Encode_range (s : ℚ) : -32767 ≤ pcm16Encode s ∧ pcm16Encode s ≤ 32767 := by
  unfold pcm16Encode jsRound
  have hc1 : (-1 : ℚ) ≤ max (-1) (min 1 s) := le_max_left _ _
  have hc2 : max (-1 : ℚ) (min 1 s) ≤ 1 := max_le (by norm_num) (min_le_left _ _)
  constructor
  · exact Int.le_floor.mpr (by push_cast; nlinarith)
  · exact Int.lt_add_one_iff.mp (Int.floor_lt.mpr (by push_cast; nlinarith))

theorem outIndex_lt (N : ℕ) (fromRate toRate : ℚ) (hf : 0 < fromRate) (ht : 0 < toRate)
    (i : ℕ) (hi : i < (⌊(N : ℚ) * (toRate / fromRate)⌋).toNat) :
    (⌊(i : ℚ) * (fromRate / toRate)⌋).toNat < N := by
  have h1 : (i : ℤ) < ⌊(N : ℚ) * (toRate / fromRate)⌋ := by omega
  have h0 : (i : ℚ) < (N : ℚ) * (toRate / fromRate) := by
    calc (i : ℚ) = (((i : ℤ) : ℚ)) := by push_cast; rfl
      _ < (⌊(N : ℚ) * (toRate / fromRate)⌋ : ℚ) := by exact_mod_cast h1
      _ ≤ (N : ℚ) * (toRate / fromRate) := Int.floor_le _
  have hpos : (0 : ℚ) < fromRate / toRate := div_pos hf ht
  have h2 : (i : ℚ) * (fromRate / toRate) < (N : ℚ) := by
    have h3 : (i : ℚ) * (fromRate / toRate)
        < ((N : ℚ) * (toRate / fromRate)) * (fromRate / toRate) :=
      mul_lt_mul_of_pos_right h0 hpos
    have h4 : ((N : ℚ) * (toRate / fromRate)) * (fromRate / toRate) = (N : ℚ) := by
      field_simp
    rw [h4] at h3
    exact h3
  have h5 : ⌊(i : ℚ) * (fromRate / toRate)⌋ < (N : ℤ) := Int.floor_lt.mpr (by exact_mod_cast h2)
  have h6 : (0 : ℤ) ≤ ⌊(i : ℚ) * (fromRate / toRate)⌋ :=
    Int.floor_nonneg.mpr (by positivity)
  omega

theorem outSampleChecked_eq (samples : List ℚ) (q : ℚ) (i : ℕ)
    (h : (⌊(i : ℚ) * q⌋).toNat < samples.length) :
    outSampleChecked samples q i = some (outSample samples q i) := by
  simp only [outSampleChecked, outSample, getSampleChecked]
  by_cases hc : (⌊(i : ℚ) * q⌋).toNat + 1 < samples.length
  · simp [hc, h]
  · simp [hc, h]

/-- C8: the resampler raises no exception on any finite input buffer,
including empty and odd-length buffers: for positive rates the checked
evaluation (which returns `none` wherever the source would throw) always
succeeds, and returns exactly the value of the pure function — so the
computation is a pure function of its input, which it does not mutate. -/
theorem resample_noThrow (input : List ℤ) (fromRate toRate : ℚ)
    (hf : 0 < fromRate) (ht : 0 < toRate) :
    resampleAudioChecked input fromRate toRate = some (resampleAudio input fromRate toRate) := by
  have hread : mapOption (fun i => (readInt16LEChecked input (2 * i)).map (fun v => (v : ℚ) / 32768))
      (List.range (input.length / 2)) = some (bytesToFloats input) := by
    unfold bytesToFloats
    apply mapOption_eq_some_map
    intro i hi
    have hlt : i < input.length / 2 := List.mem_range.mp hi
    have hb : 2 * i + 2 ≤ input.length := by omega
    rw [readInt16LEChecked, if_pos hb]
    rfl
  have hnn : (0 : ℤ) ≤ ⌊((bytesToFloats input).length : ℚ) * (toRate / fromRate)⌋ :=
    Int.floor_nonneg.mpr (by positivity)
  have hout : mapOption (outSampleChecked (bytesToFloats input) (fromRate / toRate))
      (List.range (⌊((bytesToFloats input).length : ℚ) * (toRate / fromRate)⌋).toNat)
      = some ((List.range (⌊((bytesToFloats input).length : ℚ) * (toRate / fromRate)⌋).toNat).map
          (outSample (bytesToFloats input) (fromRate / toRate))) := by
    apply mapOption_eq_some_map
    intro i hi
    exact outSampleChecked_eq _ _ _
      (outIndex_lt (bytesToFloats input).length fromRate toRate hf ht i (List.mem_range.mp hi))
  have hwrite : ∀ l : List ℚ, mapOption (fun s => writeInt16Checked (pcm16Encode s)) l
      = some (l.map pcm16Encode) := by
    intro l
    apply mapOption_eq_some_map
    intro s _
    have hr := pcm16Encode_range s
    rw [writeInt16Checked, if_pos ⟨by omega, hr.2⟩]
  rw [resampleAudioChecked, hread, Option.some_bind, if_neg (by omega), hout,
    Option.some_bind, hwrite]
  rfl

/-- C8 witness: the no-throw theorem applied to a concrete odd-length
byte buffer at the AI-to-telephony rate pair. -/
theorem resample_noThrow_witness :
    0 < (24000 : ℚ) ∧ 0 < (8000 : ℚ) ∧
      resampleAudioChecked [0, 1, 255, 127, 9] 24000 8000
        = some (resampleAudio [0, 1, 255, 127, 9] 24000 8000) :=
  ⟨by norm_num, by norm_num, resample_noThrow [0, 1, 255, 127, 9] 24000 8000
    (by norm_num) (by norm_num)⟩

/-- The chunk-splitting loop of `sendAudioToTwilio` (`part_002` lines
337-342): `for (offset = 0; offset < len; offset += 160)` slice 160
bytes, and only a slice whose length is exactly 160 is turned into a
media message.  The function is stateless: the final shorter slice is
neither emitted nor returned, and the session record
(`StreamSession`) has no carry-over field that could retain it. -/
def twilioChunks (buf : List ℤ) : List (List ℤ) :=
  if _h : 160 ≤ buf.length then buf.take 160 :: twilioChunks (buf.drop 160) else []
termination_by buf.length
decreasing_by simp only [List.length_drop]; omega

theorem twilioChunks_spec : ∀ (n : ℕ) (buf : List ℤ), buf.length ≤ n →
    (∀ c ∈ twilioChunks buf, c.length = 160) ∧
      (twilioChunks buf).flatten = buf.take (160 * (buf.length / 160)) := by
  intro n
  induction n with
  | zero =>
    intro buf hb
    have hnil : buf = [] := List.eq_nil_of_length_eq_zero (by omega)
    subst hnil
    rw [twilioChunks]
    simp
  | succ n ih =>
    intro buf hb
    rw [twilioChunks]
    by_cases h : 160 ≤ buf.length
    · rw [dif_pos h]
      have hdrop : (buf.drop 160).length ≤ n := by
        simp only [List.length_drop]; omega
      obtain ⟨ih1, ih2⟩ := ih (buf.drop 160) hdrop
      constructor
      · intro c hc
        rcases List.mem_cons.mp hc with hc | hc
        · subst hc
          simp only [List.length_take]
          omega
        · exact ih1 c hc
      · simp only [List.flatten_cons, ih2, List.length_drop]
        rw [← List.take_add]
        congr 1
        omega
    · rw [dif_neg h]
      simp only [List.flatten_nil, List.not_mem_nil, false_implies, implies_true, true_and]
      have : buf.length / 160 = 0 := Nat.div_eq_of_lt (by omega)
      rw [this]
      simp

/-- C1 amended: the outbound chunking step emits only complete frames of
exactly 160 bytes, in order and non-overlapping (their concatenation is
the prefix of the input of length `160 * (len / 160)`); the leftover
shorter than 160 bytes is never emitted — but it is discarded, not
retained: the code keeps no carry-over (see the counterexample). -/
theorem frameChunker_completeFrames (buf : List ℤ) :
    (∀ c ∈ twilioChunks buf, c.length = 160) ∧
      (twilioChunks buf).flatten = buf.take (160 * (buf.length / 160)) :=
  twilioChunks_spec buf.length buf le_rfl

/-- C1 amended witness: the chunker applied to a concrete 161-byte buffer. -/
theorem frameChunker_completeFrames_witness :
    (∀ c ∈ twilioChunks (List.replicate 161 (3 : ℤ)), c.length = 160) ∧
      (twilioChunks (List.replicate 161 (3 : ℤ))).flatten
        = (List.replicate 161 (3 : ℤ)).take (160 * ((List.replicate 161 (3 : ℤ)).length / 160)) :=
  frameChunker_completeFrames (List.replicate 161 (3 : ℤ))

/-- C1 counterexample: the claim says the leftover shorter than 160 bytes
is retained as carry-over for the next call and never dropped.  In the
code it is dropped: a first call with 161 bytes (ending in the marker
byte 7) emits one frame not containing the marker, and because
`sendAudioToTwilio` keeps no carry-over state, a following call sees
only its own bytes — here 159 further bytes, which emit nothing at all,
although the retained leftover plus 159 bytes would have completed a
frame. -/
theorem frameChunker_dropsRemainder_cex :
    twilioChunks (List.replicate 160 (0 : ℤ) ++ [7]) = [List.replicate 160 (0 : ℤ)] ∧
      twilioChunks (List.replicate 159 (0 : ℤ)) = [] := by
  have hlen : (List.replicate 160 (0 : ℤ)).length = 160 := List.length_replicate 160 0
  constructor
  · rw [twilioChunks]
    rw [dif_pos (by simp)]
    rw [List.take_left' hlen, List.drop_left' hlen, twilioChunks]
    rw [dif_neg (by simp)]
  · rw [twilioChunks]
    rw [dif_neg (by simp)]

/-- One step of the outbound frame emission shared by
`handleOpenAIMessage` (`server.ts` lines 199-212) and the chunk loop of
`sendAudioToTwilio` (`part_002` lines 343-360): for each frame the
message is built with `chunk: session.mediaChunkCounter++` — the counter
is incremented unconditionally — and the message is then sent only if
`twilioWs.readyState === OPEN`.  `emitTrace counter opens` runs one such
step per entry of `opens` (the openness of the telephony socket observed
at that frame) and returns the final counter together with the `chunk`
values of the frames actually emitted. -/
def emitTrace (counter : ℕ) : List Bool → ℕ × List ℕ
  | [] => (counter, [])
  | o :: rest =>
    let next := emitTrace (counter + 1) rest
    (next.1, if o then counter :: next.2 else next.2)

theorem emitTrace_counter (opens : List Bool) :
    ∀ c, (emitTrace c opens).1 = c + opens.length := by
  induction opens with
  | nil => intro c; simp [emitTrace]
  | cons o rest ih =>
    intro c
    simp only [emitTrace, ih (c + 1), List.length_cons]
    omega

theorem emitTrace_closed (m : ℕ) :
    ∀ c, (emitTrace c (List.replicate m false)).2 = [] := by
  induction m with
  | zero => intro c; rfl
  | succ m ih => intro c; simp [List.replicate_succ, emitTrace, ih]

theorem emitTrace_sent (k m : ℕ) :
    ∀ c, (emitTrace c (List.replicate k true ++ List.replicate m false)).2
      = (List.range k).map (· + c) := by
  induction k with
  | zero =>
    intro c
    simp [emitTrace_closed m c]
  | succ k ih =>
    intro c
    rw [List.replicate_succ, List.cons_append]
    have hstep : (emitTrace c (true :: (List.replicate k true ++ List.replicate m false))).2
        = c :: (emitTrace (c + 1) (List.replicate k true ++ List.replicate m false)).2 := by
      simp [emitTrace]
    rw [hstep, ih (c + 1), List.range_succ_eq_map, List.map_cons, List.map_map]
    congr 1
    · omega
    · apply List.map_congr_left
      intro x _
      simp only [Function.comp_apply]
      omega

/-- C2 counterexample: the claim says the `chunk` counter increases by
exactly 1 per outbound media frame actually emitted on the telephony
socket.  In the code the counter is incremented per frame processed,
whether or not it is emitted: in a run of two frames where the socket is
open for the first and no longer open for the second, the counter
advances from 0 to 2 while exactly one frame is emitted. -/
theorem outboundSeq_incrementsWithoutEmit_cex :
    ¬ ((emitTrace 0 [true, false]).1 = ((emitTrace 0 [true, false]).2).length) := by
  decide

/-- C2 amended: the counter increases by exactly 1 per outbound frame
processed (emitted or dropped), and never resets.  Because a WebSocket
that has left the OPEN state never returns to it, the openness flags of
a session's run form trues followed by falses; under that shape the
emitted frames still carry consecutive `chunk` values 0, 1, 2, ..., and
the final counter is the total number of frames processed. -/
theorem outboundSeq_consecutive_amended (k m : ℕ) :
    (emitTrace 0 (List.replicate k true ++ List.replicate m false)).2 = List.range k ∧
      (emitTrace 0 (List.replicate k true ++ List.replicate m false)).1 = k + m := by
  constructor
  · rw [emitTrace_sent k m 0]
    simp
  · rw [emitTrace_counter]
    simp

/-- C2 amended witness: three frames with the socket open followed by two
with it no longer open: emitted chunk values 0, 1, 2 and final counter 5. -/
theorem outboundSeq_consecutive_amended_witness :
    (emitTrace 0 (List.replicate 3 true ++ List.replicate 2 false)).2 = List.range 3 ∧
      (emitTrace 0 (List.replicate 3 true ++ List.replicate 2 false)).1 = 3 + 2 :=
  outboundSeq_consecutive_amended 3 2

/-- Lookup in the session registry (`sessions.get(streamSid)` on the
JavaScript `Map`), registry modelled as an association list of
stream id and session identity. -/
def mapLookup (m : List (String × ℕ)) (k : String) : Option ℕ :=
  (m.find? (fun p => p.1 == k)).map (·.2)

/-- `sessions.set(streamSid, session)` on the JavaScript `Map`: keyed
replace — any existing binding of the key is removed and the new binding
installed. -/
def mapSet (m : List (String × ℕ)) (k : String) (v : ℕ) : List (String × ℕ) :=
  (k, v) :: m.filter (fun p => !(p.1 == k))

/-- The `start` path of `server.ts` (lines 252-262 dispatching into
`initializeOpenAIWebSocket`, lines 137-153): a fresh session object is
created and stored with `sessions.set(streamSid, session)` — there is no
existence check of any kind before the `set`. -/
def handleStart (m : List (String × ℕ)) (sid : String) (fresh : ℕ) : List (String × ℕ) :=
  mapSet m sid fresh

theorem find?_filter_of_imp {α : Type} (p q : α → Bool)
    (himp : ∀ x, p x = true → q x = true) :
    ∀ l : List α, (l.filter q).find? p = l.find? p := by
  intro l
  induction l with
  | nil => rfl
  | cons a t ih =>
    by_cases hq : q a = true
    · rw [List.filter_cons_of_pos hq]
      by_cases hp : p a = true
      · rw [List.find?_cons_of_pos _ hp, List.find?_cons_of_pos _ hp]
      · rw [List.find?_cons_of_neg _ hp, List.find?_cons_of_neg _ hp, ih]
    · have hp : ¬ p a = true := fun hpa => hq (himp a hpa)
      rw [List.filter_cons_of_neg hq, ih, List.find?_cons_of_neg _ hp]

/-- C3 counterexample: the claim says a `start` for a `streamSid` that
already has a Session fails with AlreadyExists and leaves the existing
Session unmodified.  In the code a second `start` for id "A" (existing
session 1, fresh session 2) raises nothing, installs the fresh session,
and the previous session is no longer retrievable. -/
theorem registry_start_noAlreadyExists_cex :
    mapLookup [("A", 1)] "A" = some 1 ∧
      mapLookup (handleStart [("A", 1)] "A" 2) "A" = some 2 := by
  constructor
  · rfl
  · rfl

/-- C3 amended: a `start` for an existing `streamSid` does not fail: the
fresh Session silently replaces the existing one in the registry (which
is therefore modified), while bindings of every other call id are left
unchanged.  The registry still holds at most one Session per call id. -/
theorem registry_start_replaces_amended (m : List (String × ℕ)) (sid : String) (v : ℕ) :
    mapLookup (handleStart m sid v) sid = some v ∧
      ∀ k, k ≠ sid → mapLookup (handleStart m sid v) k = mapLookup m k := by
  constructor
  · unfold handleStart mapSet mapLookup
    rw [List.find?_cons_of_pos _ (by simp)]
    rfl
  · intro k hk
    unfold handleStart mapSet mapLookup
    rw [List.find?_cons_of_neg _ (by simp; exact fun h => hk h.symm)]
    rw [find?_filter_of_imp _ _ ?_]
    intro x hx
    simp only [beq_iff_eq] at hx
    simp [hx]
    exact fun h => hk (h ▸ rfl)

/-- C3 amended witness: the amended theorem applied to a concrete
registry holding ids "A" and "B". -/
theorem registry_start_replaces_amended_witness :
    mapLookup (handleStart [("A", 1), ("B", 3)] "A" 2) "A" = some 2 ∧
      ∀ k, k ≠ "A" →
        mapLookup (handleStart [("A", 1), ("B", 3)] "A" 2) k
          = mapLookup [("A", 1), ("B", 3)] k :=
  registry_start_replaces_amended [("A", 1), ("B", 3)] "A" 2

/-- Telephony-side events relevant to the session lifecycle: a `start`
message arriving (which launches the asynchronous negotiation of the AI
leg), the negotiation settling (the `await initializeWebRTC` resolving,
after which the session is stored), and a `stop` message arriving. -/
inductive TelEvent where
  | startMsg : String → TelEvent
  | settle : String → TelEvent
  | stopMsg : String → TelEvent

/-- Observable server state for the lifecycle claims: `pending` holds
call ids whose `start` handler is still awaiting negotiation (the code
has not yet run `streamingSessions.set`, cf. `server.ts` lines 641-644),
`registry` the stored sessions, `marks` the outbound `mark` messages. -/
structure BridgeState where
  pending : List String
  registry : List String
  marks : List (String × String)
deriving DecidableEq

/-- One event of the `extWs.on('message')` handler of `server.ts`
(lines 626-698).  `startMsg` only records that negotiation is in flight;
`settle` stores the session and acknowledges with mark "connected"
(lines 643-650); `stopMsg` looks the session up in the registry and, if
it is absent — in particular while its negotiation is still in flight —
does nothing at all (lines 673-693). -/
def stepEvent (s : BridgeState) : TelEvent → BridgeState
  | .startMsg sid => { s with pending := s.pending ++ [sid] }
  | .settle sid =>
      if s.pending.contains sid then
        { pending := s.pending.erase sid
          registry := s.registry ++ [sid]
          marks := s.marks ++ [(sid, "connected")] }
      else s
  | .stopMsg sid =>
      if s.registry.contains sid then
        { s with registry := s.registry.erase sid
                 marks := s.marks ++ [(sid, "disconnected")] }
      else s

/-- A run of the event handler from a given state. -/
def runEvents (s : BridgeState) (es : List TelEvent) : BridgeState :=
  es.foldl stepEvent s

/-- The server state before any telephony message. -/
def initialBridge : BridgeState := ⟨[], [], []⟩

/-- C4 counterexample: the claim says a `stop` received while negotiation
for that call id is in flight is deferred and applied once negotiation
settles, so the session always eventually reaches Closed and is removed
from the registry.  In the code the trace start "A", stop "A",
settle "A" ends with "A" still in the registry, no "disconnected"
acknowledgement ever sent, and nothing recording the stop: the stop was
silently discarded, and with no further input the session stays active
forever. -/
theorem stop_midNegotiation_lost_cex :
    (runEvents initialBridge [.startMsg "A", .stopMsg "A", .settle "A"]).registry = ["A"] ∧
      ("A", "disconnected")
        ∉ (runEvents initialBridge [.startMsg "A", .stopMsg "A", .settle "A"]).marks := by
  constructor
  · rfl
  · decide

/-- C4 amended: a `stop(callId)` received while the call id is not in the
registry — in particular while its negotiation is still in flight — is
silently discarded as a no-op: the state is left completely unchanged,
nothing is deferred, and once negotiation settles the session enters the
registry and stays there; the stop is lost. -/
theorem stop_midNegotiation_dropped_amended (s : BridgeState) (sid : String)
    (h : ¬ sid ∈ s.registry) :
    stepEvent s (.stopMsg sid) = s := by
  simp only [stepEvent]
  rw [if_neg (by simpa using h)]

/-- C4 amended witness: the amended theorem applied to the state reached
after start "A" (negotiation of "A" in flight, registry empty). -/
theorem stop_midNegotiation_dropped_amended_witness :
    ¬ "A" ∈ (runEvents initialBridge [TelEvent.startMsg "A"]).registry ∧
      stepEvent (runEvents initialBridge [TelEvent.startMsg "A"]) (.stopMsg "A")
        = runEvents initialBridge [TelEvent.startMsg "A"] :=
  ⟨by decide, stop_midNegotiation_dropped_amended _ "A" (by decide)⟩

/-- A registered session as seen by the telephony-close handler: its
call id, the identity of the telephony socket that owns it, and whether
its AI-leg socket is currently open. -/
structure RegSession where
  streamSid : String
  twilioWs : ℕ
  aiOpen : Bool
deriving DecidableEq

/-- The `ws.on('close')` handler of `server.ts` (lines 293-301): iterate
over `sessions.values()` and run `cleanupSession` — which closes the
AI-leg socket and deletes the entry — on every session whose `twilioWs`
is the closing socket.  The result is the remaining registry contents
together with the call ids of the sessions that were terminated. -/
def handleTwilioClose : List RegSession → ℕ → List RegSession × List String
  | [], _ => ([], [])
  | s :: rest, ws =>
    let r := handleTwilioClose rest ws
    if s.twilioWs == ws then (r.1, s.streamSid :: r.2) else (s :: r.1, r.2)

/-- C5: when a telephony socket closes, every Session whose telephony
handle equals the closing socket is terminated (it is handed to
`cleanupSession`, which releases the AI-side socket) and removed from
the registry — for all such sessions — while sessions owned by other
sockets are kept untouched. -/
theorem socketClose_removesOwned (sessions : List RegSession) (ws : ℕ) :
    (∀ s ∈ (handleTwilioClose sessions ws).1, s.twilioWs ≠ ws) ∧
      (∀ s ∈ sessions, s.twilioWs = ws → s.streamSid ∈ (handleTwilioClose sessions ws).2) ∧
      (handleTwilioClose sessions ws).1 = sessions.filter (fun s => !(s.twilioWs == ws)) := by
  induction sessions with
  | nil => exact ⟨by simp [handleTwilioClose], by simp, rfl⟩
  | cons a rest ih =>
    obtain ⟨ih1, ih2, ih3⟩ := ih
    by_cases h : a.twilioWs = ws
    · have hb : (a.twilioWs == ws) = true := by simp [h]
      refine ⟨?_, ?_, ?_⟩
      · intro s hs
        apply ih1
        simpa [handleTwilioClose, hb] using hs
      · intro s hs hsw
        rcases List.mem_cons.mp hs with rfl | hmem
        · simp [handleTwilioClose, hb]
        · simp only [handleTwilioClose, hb, if_true]
          exact List.mem_cons_of_mem _ (ih2 s hmem hsw)
      · simp [handleTwilioClose, hb, ih3]
    · have hb : (a.twilioWs == ws) = false := by simp [h]
      refine ⟨?_, ?_, ?_⟩
      · intro s hs
        simp only [handleTwilioClose, hb, Bool.false_eq_true, if_false] at hs
        rcases List.mem_cons.mp hs with rfl | hmem
        · exact h
        · exact ih1 s hmem
      · intro s hs hsw
        rcases List.mem_cons.mp hs with rfl | hmem
        · exact absurd hsw h
        · simp only [handleTwilioClose, hb, Bool.false_eq_true, if_false]
          exact ih2 s hmem hsw
      · simp [handleTwilioClose, hb, ih3]

/-- C5 witness: the theorem applied to a concrete registry in which three
sessions are owned by the closing socket 5 and one by socket 9, matching
the spec scenario of a socket owning three call ids. -/
theorem socketClose_removesOwned_witness :
    (∀ s ∈ (handleTwilioClose [⟨"A", 5, true⟩, ⟨"B", 5, false⟩, ⟨"D", 9, true⟩,
        ⟨"C", 5, true⟩] 5).1, s.twilioWs ≠ 5) ∧
      (∀ s ∈ [RegSession.mk "A" 5 true, ⟨"B", 5, false⟩, ⟨"D", 9, true⟩, ⟨"C", 5, true⟩],
        s.twilioWs = 5 → s.streamSid ∈ (handleTwilioClose [⟨"A", 5, true⟩, ⟨"B", 5, false⟩,
          ⟨"D", 9, true⟩, ⟨"C", 5, true⟩] 5).2) ∧
      (handleTwilioClose [⟨"A", 5, true⟩, ⟨"B", 5, false⟩, ⟨"D", 9, true⟩,
          ⟨"C", 5, true⟩] 5).1
        = [RegSession.mk "A" 5 true, ⟨"B", 5, false⟩, ⟨"D", 9, true⟩,
            ⟨"C", 5, true⟩].filter (fun s => !(s.twilioWs == 5)) :=
  socketClose_removesOwned [⟨"A", 5, true⟩, ⟨"B", 5, false⟩, ⟨"D", 9, true⟩, ⟨"C", 5, true⟩] 5

/-- Session state used by the inbound audio path of `server.ts`: the
outbound chunk counter (the only mutable per-session counter) and
whether the AI-leg socket is currently open
(`openaiWs.readyState === WebSocket.OPEN`). -/
structure TwSession where
  mediaChunkCounter : ℕ
  openaiOpen : Bool
deriving DecidableEq

/-- `handleTwilioAudio` of `server.ts` (lines 218-235): resample the
decoded payload from 8000 Hz to 24000 Hz and send it to the AI-leg
socket only if that socket is open; otherwise fall through without
raising.  The result is the (unchanged) session paired with the list of
audio payloads actually sent to the AI leg. -/
def handleTwilioAudio (session : TwSession) (audioBuffer : List ℤ) :
    TwSession × List (List ℤ) :=
  let convertedAudio := resampleAudio audioBuffer 8000 24000
  if session.openaiOpen then (session, [convertedAudio]) else (session, [])

/-- C10: on the inbound path, for every media message of an existing
session, the resampled audio is forwarded to the AI-leg transport
exactly when that transport is open; when it is not open, nothing is
forwarded, no error is raised, and the session state is unchanged — the
same silent-drop policy as on the outbound direction.  (The session is
in fact unchanged in both cases.) -/
theorem inbound_forwardOnlyWhenOpen (s : TwSession) (a : List ℤ) :
    (handleTwilioAudio s a).1 = s ∧
      (s.openaiOpen = true → (handleTwilioAudio s a).2 = [resampleAudio a 8000 24000]) ∧
      (s.openaiOpen = false → (handleTwilioAudio s a).2 = []) := by
  unfold handleTwilioAudio
  rcases hs : s.openaiOpen with _ | _ <;> simp [hs]

/-- C10 witness: the theorem applied with a closed AI-leg socket and a
concrete two-sample payload: the audio is dropped and the session kept. -/
theorem inbound_forwardOnlyWhenOpen_witness :
    (handleTwilioAudio ⟨4, false⟩ [1, 0, 2, 0]).1 = (⟨4, false⟩ : TwSession) ∧
      ((TwSession.mk 4 false).openaiOpen = true →
        (handleTwilioAudio ⟨4, false⟩ [1, 0, 2, 0]).2
          = [resampleAudio [1, 0, 2, 0] 8000 24000]) ∧
      ((TwSession.mk 4 false).openaiOpen = false →
        (handleTwilioAudio ⟨4, false⟩ [1, 0, 2, 0]).2 = []) :=
  inbound_forwardOnlyWhenOpen ⟨4, false⟩ [1, 0, 2, 0]
